import Mathlib

set_option linter.constructorNameAsVariable false

/-!
Shallow embedding of `src/fractional.py`: the `Fractional` rational-number
value type, its constructor/normalization, arithmetic, comparison, rendering
and hashing, together with proofs of the specified contracts.

Python integers are modelled as `Int`; Python `math.gcd` is `Int.gcd`
(gcd of absolute values, non-negative); Python floor division `//` is
`Int.fdiv`.  Python exceptions and the `NotImplemented` sentinel are
modelled by the explicit result type `PyResult`.
-/

/-- The `Fractional` dataclass: canonical pair `(x, y)` plus the display
pair `(original_x, original_y)` set by `__post_init__`. -/
structure Fractional where
  x : Int
  y : Int
  original_x : Int
  original_y : Int
deriving Repr, DecidableEq

/-- Result of a Python-level operation: a normal value, a raised
`ValueError`, a raised `ZeroDivisionError`, or the `NotImplemented`
sentinel returned for unsupported operand types. -/
inductive PyResult (α : Type) where
  | ok (a : α)
  | valueError (msg : String)
  | zeroDivisionError (msg : String)
  | notImplemented
deriving Repr, DecidableEq

/-- `Fractional._find_gcd`: `gcd = math.gcd(x, y); return x // gcd, y // gcd`. -/
def find_gcd (x y : Int) : Int × Int :=
  let g : Int := Int.gcd x y
  (x.fdiv g, y.fdiv g)

/-- Body of `Fractional.__post_init__` after the zero-denominator check:
sign moved from denominator to numerator, canonical pair always
gcd-reduced, display pair gcd-reduced only when `normalize_original`. -/
def postInit (x y : Int) (normalize_original : Bool) : Fractional :=
  let x1 := if y < 0 then -x else x
  let y1 := if y < 0 then -y else y
  let p := find_gcd x1 y1
  let q := if normalize_original then p else (x1, y1)
  ⟨p.1, p.2, q.1, q.2⟩

/-- `Fractional(x, y, normalize_original)`: raises `ValueError` when the
denominator is zero, otherwise runs `__post_init__`. -/
def mkFractional (x y : Int) (normalize_original : Bool) : PyResult Fractional :=
  if y = 0 then .valueError "Denominator cannot be zero."
  else .ok (postInit x y normalize_original)

/-- The right-hand operand of a binary operator: another `Fractional`, a
native integer, or a value of any other type. -/
inductive Operand where
  | frac (f : Fractional)
  | int (n : Int)
  | other
deriving Repr, DecidableEq

/-- `Fractional.__add__`. -/
def Fractional.add (self : Fractional) (other : Operand) : PyResult Fractional :=
  match other with
  | .frac o => mkFractional (self.x * o.y + o.x * self.y) (self.y * o.y) true
  | .int n => mkFractional (self.x + n * self.y) self.y true
  | .other => .notImplemented

/-- `Fractional.__radd__`: delegates to `__add__`. -/
def Fractional.radd (self : Fractional) (other : Operand) : PyResult Fractional :=
  self.add other

/-- `Fractional.__sub__`. -/
def Fractional.sub (self : Fractional) (other : Operand) : PyResult Fractional :=
  match other with
  | .frac o => mkFractional (self.x * o.y - o.x * self.y) (self.y * o.y) true
  | .int n => mkFractional (self.x - n * self.y) self.y true
  | .other => .notImplemented

/-- `Fractional.__rsub__`: integer minus Fractional; display form is not
normalized (`normalize_original` defaults to `False`). -/
def Fractional.rsub (self : Fractional) (other : Operand) : PyResult Fractional :=
  match other with
  | .int n => mkFractional (n * self.y - self.x) self.y false
  | _ => .notImplemented

/-- `Fractional.__mul__`. -/
def Fractional.mul (self : Fractional) (other : Operand) : PyResult Fractional :=
  match other with
  | .frac o => mkFractional (self.x * o.x) (self.y * o.y) true
  | .int n => mkFractional (self.x * n) self.y true
  | .other => .notImplemented

/-- `Fractional.__rmul__`: delegates to `__mul__`. -/
def Fractional.rmul (self : Fractional) (other : Operand) : PyResult Fractional :=
  self.mul other

/-- `Fractional.__truediv__`: raises `ZeroDivisionError` on a zero divisor. -/
def Fractional.truediv (self : Fractional) (other : Operand) : PyResult Fractional :=
  match other with
  | .frac o =>
      if o.x = 0 then .zeroDivisionError "Cannot divide by zero Fractional."
      else mkFractional (self.x * o.y) (self.y * o.x) true
  | .int n =>
      if n = 0 then .zeroDivisionError "Cannot divide by zero integer."
      else mkFractional self.x (self.y * n) true
  | .other => .notImplemented

/-- `Fractional.__rtruediv__`: integer divided by Fractional; display form
is not normalized. -/
def Fractional.rtruediv (self : Fractional) (other : Operand) : PyResult Fractional :=
  match other with
  | .int n =>
      if self.x = 0 then .zeroDivisionError "Cannot divide by zero Fractional."
      else mkFractional (n * self.y) self.x false
  | _ => .notImplemented

/-- `Fractional.__eq__`. -/
def Fractional.eq (self : Fractional) (other : Operand) : PyResult Bool :=
  match other with
  | .frac o => .ok (decide (self.x = o.x ∧ self.y = o.y))
  | .int n => .ok (decide (self.x = n ∧ self.y = 1))
  | .other => .notImplemented

/-- `Fractional.__lt__`. -/
def Fractional.lt (self : Fractional) (other : Operand) : PyResult Bool :=
  match other with
  | .frac o => .ok (decide (self.x * o.y < o.x * self.y))
  | .int n => .ok (decide (self.x < n * self.y))
  | .other => .notImplemented

/-- `Fractional.__le__`. -/
def Fractional.le (self : Fractional) (other : Operand) : PyResult Bool :=
  match other with
  | .frac o => .ok (decide (self.x * o.y ≤ o.x * self.y))
  | .int n => .ok (decide (self.x ≤ n * self.y))
  | .other => .notImplemented

/-- `Fractional.__gt__`. -/
def Fractional.gt (self : Fractional) (other : Operand) : PyResult Bool :=
  match other with
  | .frac o => .ok (decide (self.x * o.y > o.x * self.y))
  | .int n => .ok (decide (self.x > n * self.y))
  | .other => .notImplemented

/-- `Fractional.__ge__`. -/
def Fractional.ge (self : Fractional) (other : Operand) : PyResult Bool :=
  match other with
  | .frac o => .ok (decide (self.x * o.y ≥ o.x * self.y))
  | .int n => .ok (decide (self.x ≥ n * self.y))
  | .other => .notImplemented

/-- `Fractional.__hash__`, parameterized by the host hash on integers and
on pairs: canonical denominator 1 hashes the canonical numerator alone,
otherwise the ordered canonical pair is hashed. -/
def Fractional.pyHash (hInt : Int → Int) (hPair : Int × Int → Int)
    (self : Fractional) : Int :=
  if self.y = 1 then hInt self.x else hPair (self.x, self.y)

/-- `Fractional.__repr__`: the debug string built from the canonical pair. -/
def Fractional.reprStr (self : Fractional) : String :=
  "Fractional(" ++ toString self.x ++ ", " ++ toString self.y ++ ")"

/-- `Fractional.__str__`: the display string built from the display pair. -/
def Fractional.displayStr (self : Fractional) : String :=
  toString self.original_x ++ "/" ++ toString self.original_y

/-- The documented invariant on the canonical pair: positive denominator
and coprime numerator/denominator. -/
def Fractional.Canonical (f : Fractional) : Prop :=
  0 < f.y ∧ Int.gcd f.x f.y = 1

instance (f : Fractional) : Decidable f.Canonical := by
  unfold Fractional.Canonical; infer_instance

/-! ### Core lemmas about normalization -/

/-- `_find_gcd` on a pair with positive second component yields a coprime
pair with positive second component denoting the same rational. -/
theorem find_gcd_spec (x y : Int) (hy : 0 < y) :
    0 < (find_gcd x y).2 ∧ Int.gcd (find_gcd x y).1 (find_gcd x y).2 = 1 ∧
      (find_gcd x y).1 * y = x * (find_gcd x y).2 := by
  have hgn : Int.gcd x y ≠ 0 := by
    intro h
    rw [Int.gcd_eq_zero_iff] at h
    omega
  have hgpos : 0 < Int.gcd x y := Nat.pos_of_ne_zero hgn
  have hg : (0 : Int) < (Int.gcd x y : Int) := by exact_mod_cast hgpos
  have hdx : ((Int.gcd x y : Int)) ∣ x := Int.gcd_dvd_left
  have hdy : ((Int.gcd x y : Int)) ∣ y := Int.gcd_dvd_right
  have hfx : (find_gcd x y).1 = x / (Int.gcd x y : Int) := Int.fdiv_eq_ediv_of_dvd hdx
  have hfy : (find_gcd x y).2 = y / (Int.gcd x y : Int) := Int.fdiv_eq_ediv_of_dvd hdy
  have hxmul : (Int.gcd x y : Int) * (x / (Int.gcd x y : Int)) = x := Int.mul_ediv_cancel' hdx
  have hymul : (Int.gcd x y : Int) * (y / (Int.gcd x y : Int)) = y := Int.mul_ediv_cancel' hdy
  refine ⟨?_, ?_, ?_⟩
  · rw [hfy]
    exact Int.ediv_pos_of_pos_of_dvd hy (le_of_lt hg) hdy
  · rw [hfx, hfy]
    exact Int.gcd_div_gcd_div_gcd hgpos
  · rw [hfx, hfy]
    calc x / (Int.gcd x y : Int) * y
        = x / (Int.gcd x y : Int) * ((Int.gcd x y : Int) * (y / (Int.gcd x y : Int))) := by
          rw [hymul]
      _ = (Int.gcd x y : Int) * (x / (Int.gcd x y : Int)) * (y / (Int.gcd x y : Int)) := by
          ring
      _ = x * (y / (Int.gcd x y : Int)) := by rw [hxmul]

/-- Unfolding of `__post_init__` into its field values. -/
theorem postInit_eq (x y : Int) (b : Bool) :
    postInit x y b =
      ⟨(find_gcd (if y < 0 then -x else x) (if y < 0 then -y else y)).1,
       (find_gcd (if y < 0 then -x else x) (if y < 0 then -y else y)).2,
       if b then (find_gcd (if y < 0 then -x else x) (if y < 0 then -y else y)).1
         else (if y < 0 then -x else x),
       if b then (find_gcd (if y < 0 then -x else x) (if y < 0 then -y else y)).2
         else (if y < 0 then -y else y)⟩ := by
  cases b <;> simp [postInit]

/-- For a nonzero denominator, `__post_init__` produces a canonical pair
denoting the same rational number as the input pair. -/
theorem postInit_main (x y : Int) (b : Bool) (hy : y ≠ 0) :
    0 < (postInit x y b).y ∧ Int.gcd (postInit x y b).x (postInit x y b).y = 1 ∧
      (postInit x y b).x * y = x * (postInit x y b).y := by
  by_cases hneg : y < 0
  · have h1 : (0 : Int) < -y := by omega
    obtain ⟨hp, hg, hc⟩ := find_gcd_spec (-x) (-y) h1
    rw [postInit_eq]
    simp only [if_pos hneg]
    exact ⟨hp, hg, by linarith [hc]⟩
  · have h1 : (0 : Int) < y := by omega
    obtain ⟨hp, hg, hc⟩ := find_gcd_spec x y h1
    rw [postInit_eq]
    simp only [if_neg hneg]
    exact ⟨hp, hg, hc⟩

/-- With `normalize_original = True` the display pair equals the canonical
pair. -/
theorem postInit_display_normalized (x y : Int) :
    (postInit x y true).original_x = (postInit x y true).x ∧
      (postInit x y true).original_y = (postInit x y true).y :=
  ⟨rfl, rfl⟩

/-- With `normalize_original = False` the display pair is the
sign-normalized input pair, with no gcd reduction. -/
theorem postInit_display_raw (x y : Int) :
    (postInit x y false).original_x = (if y < 0 then -x else x) ∧
      (postInit x y false).original_y = (if y < 0 then -y else y) :=
  ⟨rfl, rfl⟩

/-- The display pair always has a positive denominator and denotes the same
rational number as the canonical pair. -/
theorem postInit_display_consistent (x y : Int) (b : Bool) (hy : y ≠ 0) :
    0 < (postInit x y b).original_y ∧
      (postInit x y b).original_x * (postInit x y b).y =
        (postInit x y b).x * (postInit x y b).original_y := by
  obtain ⟨hp, hg, hc⟩ := postInit_main x y b hy
  cases b
  · obtain ⟨hox, hoy⟩ := postInit_display_raw x y
    rw [hox, hoy]
    by_cases hneg : y < 0
    · simp only [if_pos hneg]
      exact ⟨by omega, by linarith [hc]⟩
    · simp only [if_neg hneg]
      exact ⟨by omega, by linarith [hc]⟩
  · obtain ⟨hox, hoy⟩ := postInit_display_normalized x y
    rw [hox, hoy]
    exact ⟨hp, rfl⟩

/-- Successful construction unfolds to `__post_init__`. -/
theorem mkFractional_ok_iff {x y : Int} {b : Bool} {f : Fractional} :
    mkFractional x y b = .ok f ↔ y ≠ 0 ∧ f = postInit x y b := by
  by_cases hy : y = 0 <;> simp [mkFractional, hy, eq_comm]

/-- Any successfully constructed value satisfies the canonical invariant. -/
theorem mkFractional_canonical {x y : Int} {b : Bool} {f : Fractional}
    (h : mkFractional x y b = .ok f) : f.Canonical := by
  obtain ⟨hy, rfl⟩ := mkFractional_ok_iff.mp h
  obtain ⟨h1, h2, -⟩ := postInit_main x y b hy
  exact ⟨h1, h2⟩

/-- Canonical pairs are unique: two canonical values with equal cross
products have identical numerators and denominators. -/
theorem canonical_unique {a b : Fractional} (ha : a.Canonical) (hb : b.Canonical)
    (h : a.x * b.y = b.x * a.y) : a.x = b.x ∧ a.y = b.y := by
  obtain ⟨hay, hag⟩ := ha
  obtain ⟨hby, hbg⟩ := hb
  have hca : IsCoprime a.x a.y := Int.gcd_eq_one_iff_coprime.mp hag
  have hcb : IsCoprime b.x b.y := Int.gcd_eq_one_iff_coprime.mp hbg
  have h1 : a.y ∣ a.x * b.y := ⟨b.x, by linarith [h]⟩
  have h2 : a.y ∣ b.y := (hca.symm).dvd_of_dvd_mul_left h1
  have h3 : b.y ∣ b.x * a.y := ⟨a.x, by linarith [h]⟩
  have h4 : b.y ∣ a.y := (hcb.symm).dvd_of_dvd_mul_left h3
  have hyy : a.y = b.y := Int.dvd_antisymm (le_of_lt hay) (le_of_lt hby) h2 h4
  refine ⟨?_, hyy⟩
  have hbyne : b.y ≠ 0 := ne_of_gt hby
  apply mul_right_cancel₀ hbyne
  rw [h, hyy]

/-- An ok construction result denotes the same rational as its inputs. -/
theorem mkFractional_cross {x y : Int} {b : Bool} {f : Fractional}
    (h : mkFractional x y b = .ok f) : f.x * y = x * f.y := by
  obtain ⟨hy, rfl⟩ := mkFractional_ok_iff.mp h
  exact (postInit_main x y b hy).2.2

/-- Every ok result of any arithmetic operation satisfies the canonical
invariant (all operation results are built through the constructor). -/
theorem anyOp_ok_canonical {a : Fractional} {o : Operand} {r : Fractional}
    (h : a.add o = .ok r ∨ a.sub o = .ok r ∨ a.mul o = .ok r ∨ a.truediv o = .ok r ∨
         a.radd o = .ok r ∨ a.rsub o = .ok r ∨ a.rmul o = .ok r ∨ a.rtruediv o = .ok r) :
    r.Canonical := by
  rcases h with h | h | h | h | h | h | h | h <;>
    cases o <;>
      simp only [Fractional.add, Fractional.sub, Fractional.mul, Fractional.truediv,
        Fractional.radd, Fractional.rsub, Fractional.rmul, Fractional.rtruediv] at h <;>
      first
        | exact mkFractional_canonical h
        | cases h
        | (split at h
           <;> first
             | cases h
             | exact mkFractional_canonical h)

/-- The reduced, sign-normalized canonical form of a raw fraction, stated
from the spec: move the sign to the numerator, then divide both components
by `g = gcd(|numerator|, denominator)`. -/
def specCanonForm (num den : Int) : Int × Int :=
  let n1 := if den < 0 then -num else num
  let d1 := if den < 0 then -den else den
  (n1 / (Int.gcd n1 d1 : Int), d1 / (Int.gcd n1 d1 : Int))

/-- The canonical pair computed by `__post_init__` is exactly the spec's
reduced, sign-normalized form of the input pair. -/
theorem postInit_matches_spec (num den : Int) (b : Bool) :
    ((postInit num den b).x, (postInit num den b).y) = specCanonForm num den := by
  rw [postInit_eq]
  simp only [specCanonForm, find_gcd, Prod.mk.injEq]
  exact ⟨Int.fdiv_eq_ediv_of_dvd Int.gcd_dvd_left, Int.fdiv_eq_ediv_of_dvd Int.gcd_dvd_right⟩

/-- Construction with `normalize_original = True` makes the display pair
equal the canonical pair. -/
theorem mkFractional_true_display {x y : Int} {r : Fractional}
    (h : mkFractional x y true = .ok r) : r.original_x = r.x ∧ r.original_y = r.y := by
  obtain ⟨hy, rfl⟩ := mkFractional_ok_iff.mp h
  exact postInit_display_normalized x y

/-! ### Claim theorems -/

/-- C1: every `Fractional` value produced by the public interface — direct
construction with a nonzero denominator, or the ok result of any add,
subtract, multiply or divide operation — satisfies the canonical invariant
`0 < y` and `gcd(|x|, y) = 1`, and a zero numerator canonicalizes to the
pair `(0, 1)`. -/
theorem C1_canonical_invariant (x y : Int) (b : Bool) (f : Fractional)
    (a : Fractional) (o : Operand) (r : Fractional) :
    (mkFractional x y b = .ok f →
      (0 < f.y ∧ Int.gcd f.x f.y = 1) ∧ (x = 0 → f.x = 0 ∧ f.y = 1)) ∧
    ((a.add o = .ok r ∨ a.sub o = .ok r ∨ a.mul o = .ok r ∨ a.truediv o = .ok r ∨
      a.radd o = .ok r ∨ a.rsub o = .ok r ∨ a.rmul o = .ok r ∨ a.rtruediv o = .ok r) →
      0 < r.y ∧ Int.gcd r.x r.y = 1) := by
  constructor
  · intro h
    have hinv := mkFractional_canonical h
    refine ⟨hinv, ?_⟩
    rintro rfl
    have hy : y ≠ 0 := (mkFractional_ok_iff.mp h).1
    have hcross := mkFractional_cross h
    have hfx : f.x = 0 := by
      have h0 : f.x * y = 0 := by simpa using hcross
      rcases mul_eq_zero.mp h0 with h1 | h1
      · exact h1
      · exact absurd h1 hy
    refine ⟨hfx, ?_⟩
    have hg := hinv.2
    have hpos := hinv.1
    rw [hfx] at hg
    simp only [Int.gcd, Int.natAbs_zero, Nat.gcd_zero_left] at hg
    omega
  · intro h
    exact anyOp_ok_canonical h

/-- Witness for C1 at concrete inputs: constructing `Fractional(2, -4)` and
adding `Fractional(1, 2) + Fractional(1, 3)` both yield canonical pairs. -/
theorem C1_canonical_invariant_witness :
    (0 < (postInit 2 (-4) false).y ∧
        Int.gcd (postInit 2 (-4) false).x (postInit 2 (-4) false).y = 1) ∧
      (0 < (postInit 5 6 true).y ∧
        Int.gcd (postInit 5 6 true).x (postInit 5 6 true).y = 1) :=
  ⟨((C1_canonical_invariant 2 (-4) false (postInit 2 (-4) false) (postInit 1 2 false)
      (.frac (postInit 1 3 false)) (postInit 5 6 true)).1 (by decide)).1,
   (C1_canonical_invariant 2 (-4) false (postInit 2 (-4) false) (postInit 1 2 false)
      (.frac (postInit 1 3 false)) (postInit 5 6 true)).2 (Or.inl (by decide))⟩

/-- C6: construction fails (with the `ValueError` modelling the
`InvalidArgument` kind) exactly when the denominator is zero; for every
nonzero denominator a fully formed instance satisfying the invariant is
returned, and on failure no instance is produced. -/
theorem C6_construction_atomic (x y : Int) (b : Bool) :
    ((∃ m, mkFractional x y b = .valueError m) ↔ y = 0) ∧
      (y ≠ 0 → ∃ f, mkFractional x y b = .ok f ∧ 0 < f.y ∧ Int.gcd f.x f.y = 1) := by
  constructor
  · constructor
    · rintro ⟨m, hm⟩
      by_contra hy
      simp [mkFractional, hy] at hm
    · intro hy
      exact ⟨"Denominator cannot be zero.", by simp [mkFractional, hy]⟩
  · intro hy
    refine ⟨postInit x y b, by simp [mkFractional, hy], ?_, ?_⟩
    · exact (postInit_main x y b hy).1
    · exact (postInit_main x y b hy).2.1

/-- Witness for C6: `Fractional(1, 0)` fails and `Fractional(3, 6)`
succeeds canonically. -/
theorem C6_construction_atomic_witness :
    ((∃ m, mkFractional 1 0 false = .valueError m)) ∧
      (∃ f, mkFractional 3 6 false = .ok f ∧ 0 < f.y ∧ Int.gcd f.x f.y = 1) :=
  ⟨(C6_construction_atomic 1 0 false).1.mpr rfl,
   (C6_construction_atomic 3 6 false).2 (by decide)⟩

/-- C10: the display pair of every constructed value has a positive
denominator and denotes exactly the same rational number as the canonical
pair, whatever the `normalize_original` flag. -/
theorem C10_display_same_value {x y : Int} {b : Bool} {f : Fractional}
    (h : mkFractional x y b = .ok f) :
    0 < f.original_y ∧ f.original_x * f.y = f.x * f.original_y := by
  obtain ⟨hy, rfl⟩ := mkFractional_ok_iff.mp h
  exact postInit_display_consistent x y b hy

/-- Witness for C10: the un-reduced construction `Fractional(6, -4)`. -/
theorem C10_display_same_value_witness :
    0 < (postInit 6 (-4) false).original_y ∧
      (postInit 6 (-4) false).original_x * (postInit 6 (-4) false).y =
        (postInit 6 (-4) false).x * (postInit 6 (-4) false).original_y :=
  @C10_display_same_value 6 (-4) false (postInit 6 (-4) false) (by decide)

/-- C9: rebuilding a value from its own canonical numerator and
denominator (the pair printed by the debug string) succeeds and yields a
value equal to the original, with the identical canonical pair. -/
theorem C9_roundtrip (f : Fractional) (hf : f.Canonical) :
    ∃ g, mkFractional f.x f.y false = .ok g ∧ g.eq (.frac f) = .ok true ∧
      g.x = f.x ∧ g.y = f.y ∧
      g.reprStr = "Fractional(" ++ toString f.x ++ ", " ++ toString f.y ++ ")" := by
  have hy : f.y ≠ 0 := ne_of_gt hf.1
  have hnneg : ¬ f.y < 0 := not_lt.mpr (le_of_lt hf.1)
  have hx1 : (postInit f.x f.y false).x = f.x := by
    rw [postInit_eq]
    simp only [if_neg hnneg]
    show (find_gcd f.x f.y).1 = f.x
    simp [find_gcd, hf.2]
  have hy1 : (postInit f.x f.y false).y = f.y := by
    rw [postInit_eq]
    simp only [if_neg hnneg]
    show (find_gcd f.x f.y).2 = f.y
    simp [find_gcd, hf.2]
  refine ⟨postInit f.x f.y false, by simp [mkFractional, hy], ?_, hx1, hy1, ?_⟩
  · simp [Fractional.eq, hx1, hy1]
  · simp [Fractional.reprStr, hx1, hy1]

/-- Witness for C9: round-trip of the canonical value `Fractional(-3, 4)`. -/
theorem C9_roundtrip_witness :
    ∃ g, mkFractional (postInit 3 (-4) false).x (postInit 3 (-4) false).y false = .ok g ∧
      g.eq (.frac (postInit 3 (-4) false)) = .ok true ∧
      g.x = (postInit 3 (-4) false).x ∧ g.y = (postInit 3 (-4) false).y ∧
      g.reprStr = "Fractional(" ++ toString (postInit 3 (-4) false).x ++ ", " ++
        toString (postInit 3 (-4) false).y ++ ")" :=
  C9_roundtrip (postInit 3 (-4) false) (by decide)

/-- C2: for canonical operands, add, subtract and multiply return values
whose canonical pair is exactly the reduced, sign-normalized form of the
standard fraction formulas, and an integer operand on either side behaves
as the fraction n/1. -/
theorem C2_arithmetic_standard_formulas (a b : Fractional) (n : Int)
    (ha : a.Canonical) (hb : b.Canonical) :
    (∃ r, a.add (.frac b) = .ok r ∧
        (r.x, r.y) = specCanonForm (a.x * b.y + b.x * a.y) (a.y * b.y)) ∧
    (∃ r, a.sub (.frac b) = .ok r ∧
        (r.x, r.y) = specCanonForm (a.x * b.y - b.x * a.y) (a.y * b.y)) ∧
    (∃ r, a.mul (.frac b) = .ok r ∧
        (r.x, r.y) = specCanonForm (a.x * b.x) (a.y * b.y)) ∧
    (∃ r, a.add (.int n) = .ok r ∧
        (r.x, r.y) = specCanonForm (a.x * 1 + n * a.y) (a.y * 1)) ∧
    (∃ r, a.radd (.int n) = .ok r ∧
        (r.x, r.y) = specCanonForm (n * a.y + a.x * 1) (1 * a.y)) ∧
    (∃ r, a.sub (.int n) = .ok r ∧
        (r.x, r.y) = specCanonForm (a.x * 1 - n * a.y) (a.y * 1)) ∧
    (∃ r, a.rsub (.int n) = .ok r ∧
        (r.x, r.y) = specCanonForm (n * a.y - a.x * 1) (1 * a.y)) ∧
    (∃ r, a.mul (.int n) = .ok r ∧
        (r.x, r.y) = specCanonForm (a.x * n) (a.y * 1)) ∧
    (∃ r, a.rmul (.int n) = .ok r ∧
        (r.x, r.y) = specCanonForm (n * a.x) (1 * a.y)) := by
  have hay : a.y ≠ 0 := ne_of_gt ha.1
  have hby : b.y ≠ 0 := ne_of_gt hb.1
  have hab : a.y * b.y ≠ 0 := mul_ne_zero hay hby
  refine ⟨?_, ?_, ?_, ?_, ?_, ?_, ?_, ?_, ?_⟩
  · exact ⟨postInit (a.x * b.y + b.x * a.y) (a.y * b.y) true,
      by simp [Fractional.add, mkFractional, hab], postInit_matches_spec _ _ _⟩
  · exact ⟨postInit (a.x * b.y - b.x * a.y) (a.y * b.y) true,
      by simp [Fractional.sub, mkFractional, hab], postInit_matches_spec _ _ _⟩
  · exact ⟨postInit (a.x * b.x) (a.y * b.y) true,
      by simp [Fractional.mul, mkFractional, hab], postInit_matches_spec _ _ _⟩
  · refine ⟨postInit (a.x + n * a.y) a.y true,
      by simp [Fractional.add, mkFractional, hay], ?_⟩
    rw [mul_one, mul_one]
    exact postInit_matches_spec _ _ _
  · refine ⟨postInit (a.x + n * a.y) a.y true,
      by simp [Fractional.radd, Fractional.add, mkFractional, hay], ?_⟩
    rw [mul_one, one_mul, add_comm (n * a.y) a.x]
    exact postInit_matches_spec _ _ _
  · refine ⟨postInit (a.x - n * a.y) a.y true,
      by simp [Fractional.sub, mkFractional, hay], ?_⟩
    rw [mul_one, mul_one]
    exact postInit_matches_spec _ _ _
  · refine ⟨postInit (n * a.y - a.x) a.y false,
      by simp [Fractional.rsub, mkFractional, hay], ?_⟩
    rw [mul_one, one_mul]
    exact postInit_matches_spec _ _ _
  · refine ⟨postInit (a.x * n) a.y true,
      by simp [Fractional.mul, mkFractional, hay], ?_⟩
    rw [mul_one]
    exact postInit_matches_spec _ _ _
  · refine ⟨postInit (a.x * n) a.y true,
      by simp [Fractional.rmul, Fractional.mul, mkFractional, hay], ?_⟩
    rw [one_mul, mul_comm n a.x]
    exact postInit_matches_spec _ _ _

/-- Witness for C2: `Fractional(1, 2) + Fractional(1, 3)` computed by the
standard formula in canonical form. -/
theorem C2_arithmetic_standard_formulas_witness :
    ∃ r, (⟨1, 2, 1, 2⟩ : Fractional).add (.frac ⟨1, 3, 1, 3⟩) = .ok r ∧
      (r.x, r.y) = specCanonForm ((1 : Int) * 3 + 1 * 2) (2 * 3) :=
  (C2_arithmetic_standard_formulas ⟨1, 2, 1, 2⟩ ⟨1, 3, 1, 3⟩ 7
    (by decide) (by decide)).1

/-- C3: every forward operation and the reflected add/multiply display a
fully reduced pair (their display pair coincides with the canonical pair),
while reflected subtraction and reflected division only sign-normalize the
display pair, keeping the raw computed numerator/denominator; concretely,
`6 / Fractional(2, 1)` has display pair (6, 2) rendering "6/2" although
its canonical pair is (3, 1). -/
theorem C3_display_asymmetry (a : Fractional) (o : Operand) (r s t : Fractional) (n : Int)
    (ha : a.Canonical) :
    ((a.add o = .ok r ∨ a.sub o = .ok r ∨ a.mul o = .ok r ∨ a.truediv o = .ok r ∨
      a.radd o = .ok r ∨ a.rmul o = .ok r) →
      r.original_x = r.x ∧ r.original_y = r.y) ∧
    (a.rsub (.int n) = .ok s →
      s.original_x = n * a.y - a.x ∧ s.original_y = a.y) ∧
    (a.rtruediv (.int n) = .ok t →
      t.original_x = (if a.x < 0 then -(n * a.y) else n * a.y) ∧
      t.original_y = (if a.x < 0 then -a.x else a.x)) ∧
    (postInit 2 1 false).rtruediv (.int 6) = .ok ⟨3, 1, 6, 2⟩ ∧
    Fractional.displayStr ⟨3, 1, 6, 2⟩ = "6/2" ∧
    Fractional.reprStr ⟨3, 1, 6, 2⟩ = "Fractional(3, 1)" := by
  refine ⟨?_, ?_, ?_, by decide, rfl, rfl⟩
  · rintro (h | h | h | h | h | h) <;>
      cases o <;>
        simp only [Fractional.add, Fractional.sub, Fractional.mul, Fractional.truediv,
          Fractional.radd, Fractional.rmul] at h <;>
        first
          | exact mkFractional_true_display h
          | cases h
          | (split at h <;> first | cases h | exact mkFractional_true_display h)
  · intro h
    simp only [Fractional.rsub] at h
    obtain ⟨hy, rfl⟩ := mkFractional_ok_iff.mp h
    obtain ⟨hox, hoy⟩ := postInit_display_raw (n * a.y - a.x) a.y
    have hnneg : ¬ a.y < 0 := not_lt.mpr (le_of_lt ha.1)
    rw [hox, hoy]
    simp only [if_neg hnneg]
    exact ⟨by trivial, by trivial⟩
  · intro h
    simp only [Fractional.rtruediv] at h
    split at h
    · cases h
    · obtain ⟨hx, rfl⟩ := mkFractional_ok_iff.mp h
      obtain ⟨hox, hoy⟩ := postInit_display_raw (n * a.y) a.x
      rw [hox, hoy]
      exact ⟨by trivial, by trivial⟩

/-- Witness for C3: subtraction displays reduced, reflected subtraction and
division carry the raw pair, at concrete canonical inputs. -/
theorem C3_display_asymmetry_witness :
    ((⟨1, 4, 1, 4⟩ : Fractional).original_x = (⟨1, 4, 1, 4⟩ : Fractional).x ∧
      (⟨1, 4, 1, 4⟩ : Fractional).original_y = (⟨1, 4, 1, 4⟩ : Fractional).y) ∧
    ((⟨11, 2, 11, 2⟩ : Fractional).original_x =
        6 * (⟨1, 2, 1, 2⟩ : Fractional).y - (⟨1, 2, 1, 2⟩ : Fractional).x ∧
      (⟨11, 2, 11, 2⟩ : Fractional).original_y = (⟨1, 2, 1, 2⟩ : Fractional).y) ∧
    ((⟨12, 1, 12, 1⟩ : Fractional).original_x =
        (if (⟨1, 2, 1, 2⟩ : Fractional).x < 0 then -(6 * (⟨1, 2, 1, 2⟩ : Fractional).y)
          else 6 * (⟨1, 2, 1, 2⟩ : Fractional).y) ∧
      (⟨12, 1, 12, 1⟩ : Fractional).original_y =
        (if (⟨1, 2, 1, 2⟩ : Fractional).x < 0 then -(⟨1, 2, 1, 2⟩ : Fractional).x
          else (⟨1, 2, 1, 2⟩ : Fractional).x)) :=
  ⟨(C3_display_asymmetry ⟨1, 2, 1, 2⟩ (.frac ⟨1, 4, 1, 4⟩) ⟨1, 4, 1, 4⟩ ⟨11, 2, 11, 2⟩
      ⟨12, 1, 12, 1⟩ 6 (by decide)).1 (Or.inr (Or.inl (by decide))),
   (C3_display_asymmetry ⟨1, 2, 1, 2⟩ (.frac ⟨1, 4, 1, 4⟩) ⟨1, 4, 1, 4⟩ ⟨11, 2, 11, 2⟩
      ⟨12, 1, 12, 1⟩ 6 (by decide)).2.1 (by decide),
   (C3_display_asymmetry ⟨1, 2, 1, 2⟩ (.frac ⟨1, 4, 1, 4⟩) ⟨1, 4, 1, 4⟩ ⟨11, 2, 11, 2⟩
      ⟨12, 1, 12, 1⟩ 6 (by decide)).2.2.1 (by decide)⟩

/-- C4: each comparison between canonical values returns the result of
cross-multiplication on the canonical pairs; equality against an integer
holds exactly when the canonical pair is (n, 1), and relational
comparisons treat the integer as n/1. -/
theorem C4_comparisons_cross_mult (a b : Fractional) (n : Int)
    (ha : a.Canonical) (hb : b.Canonical) :
    a.eq (.frac b) = .ok (decide (a.x * b.y = b.x * a.y)) ∧
    a.lt (.frac b) = .ok (decide (a.x * b.y < b.x * a.y)) ∧
    a.le (.frac b) = .ok (decide (a.x * b.y ≤ b.x * a.y)) ∧
    a.gt (.frac b) = .ok (decide (a.x * b.y > b.x * a.y)) ∧
    a.ge (.frac b) = .ok (decide (a.x * b.y ≥ b.x * a.y)) ∧
    a.eq (.int n) = .ok (decide (a.x = n ∧ a.y = 1)) ∧
    a.lt (.int n) = .ok (decide (a.x * 1 < n * a.y)) ∧
    a.le (.int n) = .ok (decide (a.x * 1 ≤ n * a.y)) ∧
    a.gt (.int n) = .ok (decide (a.x * 1 > n * a.y)) ∧
    a.ge (.int n) = .ok (decide (a.x * 1 ≥ n * a.y)) := by
  refine ⟨?_, rfl, rfl, rfl, rfl, rfl, ?_, ?_, ?_, ?_⟩
  · simp only [Fractional.eq, PyResult.ok.injEq]
    rw [decide_eq_decide]
    constructor
    · rintro ⟨h1, h2⟩
      rw [h1, h2]
    · intro h
      exact canonical_unique ha hb h
  · simp only [Fractional.lt, mul_one]
  · simp only [Fractional.le, mul_one]
  · simp only [Fractional.gt, mul_one]
  · simp only [Fractional.ge, mul_one]

/-- Witness for C4: comparing `Fractional(1, 2)` with `Fractional(2, 3)`. -/
theorem C4_comparisons_cross_mult_witness :
    (⟨1, 2, 1, 2⟩ : Fractional).eq (.frac ⟨2, 3, 2, 3⟩) =
      .ok (decide ((1 : Int) * 3 = 2 * 2)) ∧
    (⟨1, 2, 1, 2⟩ : Fractional).lt (.frac ⟨2, 3, 2, 3⟩) =
      .ok (decide ((1 : Int) * 3 < 2 * 2)) :=
  ⟨(C4_comparisons_cross_mult ⟨1, 2, 1, 2⟩ ⟨2, 3, 2, 3⟩ 5 (by decide) (by decide)).1,
   (C4_comparisons_cross_mult ⟨1, 2, 1, 2⟩ ⟨2, 3, 2, 3⟩ 5 (by decide) (by decide)).2.1⟩

/-- C5: division fails with `ZeroDivisionError` exactly when the divisor's
effective numerator is zero (zero-valued `Fractional` divisor or integer
0), and otherwise returns the canonical form of the quotient formula
ad/bc, with no value produced on failure. -/
theorem C5_division_by_zero (a b : Fractional) (n : Int)
    (ha : a.Canonical) (hb : b.Canonical) :
    ((∃ m, a.truediv (.frac b) = .zeroDivisionError m) ↔ b.x = 0) ∧
    (b.x ≠ 0 → ∃ r, a.truediv (.frac b) = .ok r ∧
        (r.x, r.y) = specCanonForm (a.x * b.y) (a.y * b.x)) ∧
    ((∃ m, a.truediv (.int n) = .zeroDivisionError m) ↔ n = 0) ∧
    (n ≠ 0 → ∃ r, a.truediv (.int n) = .ok r ∧
        (r.x, r.y) = specCanonForm (a.x * 1) (a.y * n)) ∧
    ((∃ m, a.rtruediv (.int n) = .zeroDivisionError m) ↔ a.x = 0) ∧
    (a.x ≠ 0 → ∃ r, a.rtruediv (.int n) = .ok r ∧
        (r.x, r.y) = specCanonForm (n * a.y) (1 * a.x)) := by
  have hay : a.y ≠ 0 := ne_of_gt ha.1
  refine ⟨?_, ?_, ?_, ?_, ?_, ?_⟩
  · constructor
    · rintro ⟨m, hm⟩
      by_contra hbx
      simp [Fractional.truediv, hbx, mkFractional, mul_ne_zero hay hbx] at hm
    · intro hbx
      exact ⟨"Cannot divide by zero Fractional.", by simp [Fractional.truediv, hbx]⟩
  · intro hbx
    refine ⟨postInit (a.x * b.y) (a.y * b.x) true, ?_, postInit_matches_spec _ _ _⟩
    simp [Fractional.truediv, hbx, mkFractional, mul_ne_zero hay hbx]
  · constructor
    · rintro ⟨m, hm⟩
      by_contra hn
      simp [Fractional.truediv, hn, mkFractional, mul_ne_zero hay hn] at hm
    · intro hn
      exact ⟨"Cannot divide by zero integer.", by simp [Fractional.truediv, hn]⟩
  · intro hn
    refine ⟨postInit a.x (a.y * n) true, ?_, ?_⟩
    · simp [Fractional.truediv, hn, mkFractional, mul_ne_zero hay hn]
    · rw [mul_one]
      exact postInit_matches_spec _ _ _
  · constructor
    · rintro ⟨m, hm⟩
      by_contra hax
      simp [Fractional.rtruediv, hax, mkFractional] at hm
    · intro hax
      exact ⟨"Cannot divide by zero Fractional.", by simp [Fractional.rtruediv, hax]⟩
  · intro hax
    refine ⟨postInit (n * a.y) a.x false, ?_, ?_⟩
    · simp [Fractional.rtruediv, hax, mkFractional]
    · rw [one_mul]
      exact postInit_matches_spec _ _ _

/-- Witness for C5: `Fractional(1, 2) / 0` fails while
`Fractional(1, 2) / Fractional(1, 3)` returns the canonical quotient. -/
theorem C5_division_by_zero_witness :
    (∃ m, (⟨1, 2, 1, 2⟩ : Fractional).truediv (.int 0) = .zeroDivisionError m) ∧
    (∃ r, (⟨1, 2, 1, 2⟩ : Fractional).truediv (.frac ⟨1, 3, 1, 3⟩) = .ok r ∧
      (r.x, r.y) = specCanonForm ((1 : Int) * 3) (2 * 1)) :=
  ⟨(C5_division_by_zero ⟨1, 2, 1, 2⟩ ⟨1, 3, 1, 3⟩ 0 (by decide) (by decide)).2.2.1.mpr rfl,
   (C5_division_by_zero ⟨1, 2, 1, 2⟩ ⟨1, 3, 1, 3⟩ 0 (by decide) (by decide)).2.1
     (by decide)⟩

/-- C7: a value with canonical denominator 1 hashes exactly as its
canonical integer numerator, any other value hashes the ordered canonical
pair, and values that compare equal (to a value or to an integer) hash
equal. -/
theorem C7_hash_consistency (hInt : Int → Int) (hPair : Int × Int → Int)
    (f g : Fractional) (n : Int) :
    (f.y = 1 → f.pyHash hInt hPair = hInt f.x) ∧
    (f.y ≠ 1 → f.pyHash hInt hPair = hPair (f.x, f.y)) ∧
    (f.eq (.frac g) = .ok true → f.pyHash hInt hPair = g.pyHash hInt hPair) ∧
    (f.eq (.int n) = .ok true → f.pyHash hInt hPair = hInt n) := by
  refine ⟨?_, ?_, ?_, ?_⟩
  · intro h
    simp [Fractional.pyHash, h]
  · intro h
    simp [Fractional.pyHash, h]
  · intro h
    simp only [Fractional.eq, PyResult.ok.injEq, decide_eq_true_eq] at h
    obtain ⟨h1, h2⟩ := h
    simp [Fractional.pyHash, h1, h2]
  · intro h
    simp only [Fractional.eq, PyResult.ok.injEq, decide_eq_true_eq] at h
    obtain ⟨h1, h2⟩ := h
    simp [Fractional.pyHash, h1, h2]

/-- Witness for C7: `hash(Fractional(2, 1)) = hash(2)` and equal values
`Fractional(1, 2)`, `Fractional(2, 4)` hash equal, for a concrete host
hash. -/
theorem C7_hash_consistency_witness :
    ((⟨2, 1, 2, 1⟩ : Fractional).pyHash (fun z => z + 10) (fun p => p.1 * 100 + p.2) =
        (fun z : Int => z + 10) 2) ∧
    ((⟨1, 2, 1, 2⟩ : Fractional).pyHash (fun z => z + 10) (fun p => p.1 * 100 + p.2) =
        (⟨1, 2, 2, 4⟩ : Fractional).pyHash (fun z => z + 10) (fun p => p.1 * 100 + p.2)) :=
  ⟨(C7_hash_consistency (fun z => z + 10) (fun p => p.1 * 100 + p.2)
      ⟨2, 1, 2, 1⟩ ⟨2, 1, 2, 1⟩ 2).2.2.2 (by decide),
   (C7_hash_consistency (fun z => z + 10) (fun p => p.1 * 100 + p.2)
      ⟨1, 2, 1, 2⟩ ⟨1, 2, 2, 4⟩ 2).2.2.1 (by decide)⟩

/-- C8: every arithmetic and comparison operation given an operand that is
neither a `Fractional` nor a native integer returns the `NotImplemented`
sentinel, producing no value and raising no error. -/
theorem C8_unsupported_operand (a : Fractional) :
    a.add .other = .notImplemented ∧ a.radd .other = .notImplemented ∧
    a.sub .other = .notImplemented ∧ a.rsub .other = .notImplemented ∧
    a.mul .other = .notImplemented ∧ a.rmul .other = .notImplemented ∧
    a.truediv .other = .notImplemented ∧ a.rtruediv .other = .notImplemented ∧
    a.eq .other = .notImplemented ∧ a.lt .other = .notImplemented ∧
    a.le .other = .notImplemented ∧ a.gt .other = .notImplemented ∧
    a.ge .other = .notImplemented :=
  ⟨rfl, rfl, rfl, rfl, rfl, rfl, rfl, rfl, rfl, rfl, rfl, rfl, rfl⟩
